import Mathlib

/-!
Verification of the region-entry-recovery tool (`src/main.rs`, `src/util.rs`).

The Rust sources are shallowly embedded below.  Machine integers are
modelled as `Nat` with explicit `% 2 ^ 32` at the points where the source
performs an `as u32` cast; byte buffers are modelled as a length together
with a total lookup function (every in-bounds index the scanner reads is
provably in bounds, see the comments at the individual reads); Rust panics
(out-of-range slice/index expressions, `unwrap()` on `None`/`Err`,
`assert!` failures) are modelled explicitly as the `none` / `panic` cases
of the corresponding embedded functions.  The external NBT decoder
(`quartz_nbt::io::read_nbt`) is an external library and is modelled as an
opaque parameter, exactly as the spec treats it ("payload decoder"
collaborator).
-/

namespace RegionRecovery

/-! ### Constants (util.rs lines 4-10) -/

def REGION_DIAMETER_IN_CHUNKS : Nat := 32
def CHUNKS_PER_REGION : Nat := REGION_DIAMETER_IN_CHUNKS * REGION_DIAMETER_IN_CHUNKS
def SECTOR_SIZE : Nat := 4096
def SIZE_BITS : Nat := 8
def SIZE_MASK : Nat := (1 <<< SIZE_BITS) - 1

/-! ### Data model -/

/-- util.rs lines 12-16. -/
inductive DuplicateBehaviour where
  | TakeCurrent
  | TakeUntracked
deriving DecidableEq

/-- util.rs lines 18-23. `offset_sectors` is a `u32` value, `size_sectors` a `u8`
value; both are carried as `Nat`. -/
structure RegionEntry where
  is_current : Bool
  offset_sectors : Nat
  size_sectors : Nat
deriving DecidableEq

/-- A byte buffer (`Vec<u8>` / `&[u8]`): a length plus a total lookup function.
In the Rust source every `bytes[i]` read performed by the scanner and the
header writer is in bounds (justified at each use site); the one indexing
expression that can genuinely go out of bounds — the payload slice at
main.rs line 48 — is modelled by an explicit bounds check producing a panic. -/
structure Bytes where
  len : Nat
  data : Nat → Nat

/-- util.rs lines 46-51. -/
def read_bigendian_u32 (bytes : Bytes) (header_offset : Nat) : Nat :=
  (bytes.data (header_offset + 3)) |||
    ((bytes.data (header_offset + 2)) <<< 8) |||
    ((bytes.data (header_offset + 1)) <<< 16) |||
    ((bytes.data (header_offset + 0)) <<< 24)

/-- util.rs lines 32-36: the four byte stores of `set_header_entry`
(the trailing assertions are modelled separately by
`set_header_entry_asserts`).  The four target indices are pairwise
distinct, so the nested update order matches the source's four
assignments. -/
def set_header_entry (bytes : Bytes) (header_offset sector_idx size : Nat) : Bytes :=
  { bytes with
    data := fun i =>
      if i = header_offset + 3 then size
      else if i = header_offset + 2 then (sector_idx >>> 0) &&& 0xff
      else if i = header_offset + 1 then (sector_idx >>> 8) &&& 0xff
      else if i = header_offset + 0 then (sector_idx >>> 16) &&& 0xff
      else bytes.data i }

/-- util.rs lines 38-43: the post-write round-trip assertions of
`set_header_entry`.  `sector_idx as u32` is the `% 2 ^ 32` below;
`size` is already a `u8` and `packed & SIZE_MASK` is below `2 ^ 8`,
so the `as u8` cast on the read-back size is the identity. -/
def set_header_entry_asserts (bytes : Bytes) (header_offset sector_idx size : Nat) : Bool :=
  let packed := read_bigendian_u32 (set_header_entry bytes header_offset sector_idx size)
      header_offset
  (sector_idx % 2 ^ 32 == packed >>> SIZE_BITS) && (size == packed &&& SIZE_MASK)

/-! ### The external NBT decoder -/

/-- `quartz_nbt::io::Flavor` (the two values used at main.rs lines 35-39). -/
inductive Flavor where
  | GzCompressed
  | ZlibCompressed
deriving DecidableEq

/-- A decoded NBT tag, restricted to the structure the program inspects:
integer leaves (`NbtTag::Int`), compound nodes, and everything else. -/
inductive NbtTag where
  | int : Int → NbtTag
  | compound : List (String × NbtTag) → NbtTag
  | other : NbtTag

/-- A decoded root compound: field lookup by name (`NbtCompound::get` /
`contains_key`), modelled as association-list lookup. -/
abbrev NbtCompound := List (String × NbtTag)

/-- The external payload decoder (`quartz_nbt::io::read_nbt` at main.rs
lines 47-50), abstracted as in the spec: it receives the compression
flavor and the byte slice `bytes[slice_start .. slice_start+size_bytes]`
(given by the underlying lookup function together with the slice start
and length) and either returns the root compound or fails. -/
def Decoder : Type :=
  Flavor → (Nat → Nat) → Nat → Nat → Option NbtCompound

/-! ### Entry discovery (main.rs lines 21-109) -/

/-- Outcome of one iteration of the scan loop body (main.rs lines 24-106). -/
inductive StepResult where
  | panic
  | skip
  | found (slot : Nat) (e : RegionEntry)

/-- main.rs line 40: `f32::ceil(size_bytes as f32 / SECTOR_SIZE as f32) as u8`.
For `size_bytes ≤ 2 ^ 24` every step is exact in `f32` (the 24-bit mantissa
represents the value exactly and dividing by `4096` only shifts the
exponent), so the float ceiling equals the integer ceiling
`(size_bytes + 4095) / 4096`, and the saturating `as u8` cast clamps it at
`255`.  For `size_bytes > 2 ^ 24` the rounded float is still `≥ 2 ^ 24`, its
quotient is `≥ 4096 > 255`, so the cast saturates to `255` — and the integer
ceiling is also `> 255`, so the `min` forms agree.  Hence this expression is
exact for every `u32` input. -/
def size_sectors_as_u8 (size_bytes : Nat) : Nat :=
  min ((size_bytes + (SECTOR_SIZE - 1)) / SECTOR_SIZE) 255

/-- The body of the scan loop (main.rs lines 24-105) at one sector index.

In-bounds justification for the unguarded reads: the loop only runs for
`2 ≤ sector_idx < bytes.len / 4096`, so `byte_offset + 4 < bytes.len`
(the length prefix and compression tag), and `bytes.len ≥ 12288`, so the
header-table read at `header_offset * 4 + 3 ≤ 4095` is in bounds.
The payload slice `&bytes[slice_start..slice_end]` (line 48) panics when
`slice_end > bytes.len`, which the length check at line 29 does *not*
exclude (it compares against the bytes remaining from the sector start,
not from the payload start): that panic is modelled explicitly.
`NbtCompound::get::<_, &NbtTag>(..).unwrap()` panics when the key is
absent, and the `Option::unwrap` at lines 71/77 panics when the tag is
present but not an `Int`: both are modelled as `.panic`.
`chunk_x & 0x1f` on a two's-complement `i32` equals the (nonnegative)
`chunk_x % 32` with `Int.emod`, and `(chunk_z & 0x1f) << 5` is
`(chunk_z % 32) * 32`; their sum is at most `1023`, so the `as usize`
cast is `Int.toNat`. -/
def scanSector (decode : Decoder) (bytes : Bytes) (sector_idx : Nat) : StepResult :=
  let byte_offset := sector_idx * SECTOR_SIZE
  let size_bytes := read_bigendian_u32 bytes byte_offset
  let compression_format := bytes.data (byte_offset + 4)
  if size_bytes > bytes.len - byte_offset
      ∨ (compression_format ≠ 1 ∧ compression_format ≠ 2) then
    .skip
  else
    let flavor := if compression_format = 1 then Flavor.GzCompressed else Flavor.ZlibCompressed
    let size_sectors := size_sectors_as_u8 size_bytes
    let slice_start := byte_offset + 4 + 1
    let slice_end := slice_start + size_bytes
    if bytes.len < slice_end then
      .panic
    else
      match decode flavor bytes.data slice_start size_bytes with
      | none => .skip
      | some root =>
        let levelOpt : Option NbtCompound :=
          match List.lookup "Level" root with
          | some (NbtTag.compound t) => some t
          | some _ => none
          | none => some root
        match levelOpt with
        | none => .skip
        | some level =>
          match List.lookup "xPos" level, List.lookup "zPos" level with
          | some (NbtTag.int chunk_x), some (NbtTag.int chunk_z) =>
            let header_offset := (chunk_x % 32 + (chunk_z % 32) * 32).toNat
            let existing_packed := read_bigendian_u32 bytes (header_offset * 4)
            let existing_offset := existing_packed >>> SIZE_BITS
            let existing_size := existing_packed &&& SIZE_MASK
            let is_current_entry :=
              (existing_offset == sector_idx % 2 ^ 32) && (existing_size == size_sectors)
            .found header_offset
              { is_current := is_current_entry
                offset_sectors := sector_idx % 2 ^ 32
                size_sectors := size_sectors }
          | _, _ => .panic

/-- The scan loop (main.rs lines 24-106) over a list of sector indices,
threading the accumulator `Vec<Vec<RegionEntry>>`.  The accumulator is
modelled as a function from slot index to candidate list; in the source
it is `vec![Vec::new(); SECTOR_SIZE]` and `header_offset ≤ 1023 < 4096`,
so the `get_mut` at line 97 always succeeds and the `None` arm at lines
98-101 is dead code.  A panic anywhere in the loop body aborts the scan
(`none`). -/
def scanLoop (decode : Decoder) (bytes : Bytes) :
    List Nat → (Nat → List RegionEntry) → Option (Nat → List RegionEntry)
  | [], acc => some acc
  | sector_idx :: rest, acc =>
    match scanSector decode bytes sector_idx with
    | .panic => none
    | .skip => scanLoop decode bytes rest acc
    | .found slot e =>
      scanLoop decode bytes rest (fun i => if i = slot then acc i ++ [e] else acc i)

/-- The sector indices visited by the scan:
`for sector_idx in 2..bytes.len() / SECTOR_SIZE` (main.rs line 24). -/
def sectorRange (bytes : Bytes) : List Nat :=
  List.range' 2 (bytes.len / SECTOR_SIZE - 2)

/-- main.rs lines 21-109: `discover_all_entries`.  Returns `none` when the
scan panics. -/
def discover_all_entries (decode : Decoder) (bytes : Bytes) :
    Option (Nat → List RegionEntry) :=
  scanLoop decode bytes (sectorRange bytes) (fun _ => [])

/-! ### Interactive collaborator -/

/-- Modelled from the spec: `ask_for_integer` is called at main.rs line 200
but is not defined under `src/` (util.rs only defines
`ask_for_integer_greater_than_1`).  Per the spec's collaborator contract
(§6, §7: invalid interactive input is re-prompted, never silently
defaulted), it re-prompts until the supplied validation predicate accepts
the parsed integer, and returns that value.  Its result is therefore an
arbitrary value satisfying the call site's predicate; `resolve_slot`
receives that value as `ask_ordinal`, and the call site at main.rs
line 200 validates only `|value| value > 0`, captured by this contract. -/
def ask_for_integer_contract (value : Nat) : Prop := 0 < value

/-! ### Duplicate resolution (main.rs lines 128-215, one slot) -/

/-- Per-slot outcome of the resolution engine: skip the slot (`continue`),
save a chosen entry via `set_header_entry`, or panic. -/
inductive SlotAction where
  | noAction
  | save (e : RegionEntry)
  | panic
deriving DecidableEq

/-- The per-slot resolution logic of `recover_entries` (main.rs lines
129-205).  `ask_behaviour` is the answer `ask_for_duplicate_behaviour`
would return if consulted (line 169); `ask_ordinal` is the answer
`ask_for_integer(|value| value > 0)` would return if consulted (line 200).
`.panic` models, in source order: the `assert!(current_count <= 1)` at
line 147, the `panic!` at line 175, the `unwrap()` at line 185, the
out-of-bounds index `untracked_entries[entry_idx]` at line 201 (reachable
because the ordinal is only validated positive, not bounded above), and
the `panic!` at line 204. -/
def resolve_slot (duplicate_behaviour : Option DuplicateBehaviour)
    (ask_behaviour : DuplicateBehaviour) (ask_ordinal : Nat)
    (entries : List RegionEntry) : SlotAction :=
  match entries with
  | [] => .noAction
  | [entry] => if entry.is_current then .noAction else .save entry
  | _ :: _ :: _ =>
    let current_count := entries.countP (fun e => e.is_current)
    if 1 < current_count then
      .panic
    else
      let has_current := current_count = 1
      let untracked_count := entries.countP (fun e => !e.is_current)
      let has_untracked := 0 < untracked_count
      let has_multiple_untracked := 1 < untracked_count
      let behaviourOpt : Option DuplicateBehaviour :=
        match duplicate_behaviour with
        | none =>
          if has_current ∧ has_untracked then some ask_behaviour
          else if has_current then some .TakeCurrent
          else if has_untracked then some .TakeUntracked
          else none
        | some behaviour => some behaviour
      match behaviourOpt with
      | none => .panic
      | some current_behaviour =>
        if has_current ∧ current_behaviour = .TakeCurrent then
          .noAction
        else if untracked_count = 1 ∧ current_behaviour = .TakeUntracked then
          match entries.find? (fun e => !e.is_current) with
          | some e => .save e
          | none => .panic
        else if has_multiple_untracked then
          let untracked_entries := entries.filter (fun e => !e.is_current)
          let entry_idx := ask_ordinal - 1
          match untracked_entries[entry_idx]? with
          | some e => .save e
          | none => .panic
        else
          .panic

/-- The per-slot loop of `recover_entries` (main.rs lines 128-215): for each
header index resolve the slot, and on a chosen entry write it through
`set_header_entry` (whose post-write assertions can panic) and record that
something was recovered.  The collaborator answers are indexed by slot
(each slot consults each prompt at most once). -/
def recover_loop (duplicate_behaviour : Option DuplicateBehaviour)
    (ask_behaviour : Nat → DuplicateBehaviour) (ask_ordinal : Nat → Nat)
    (slots : Nat → List RegionEntry) :
    List Nat → Bytes → Bool → Option (Bytes × Bool)
  | [], bytes, any_recovered => some (bytes, any_recovered)
  | header_idx :: rest, bytes, any_recovered =>
    match resolve_slot duplicate_behaviour (ask_behaviour header_idx) (ask_ordinal header_idx)
        (slots header_idx) with
    | .panic => none
    | .noAction =>
      recover_loop duplicate_behaviour ask_behaviour ask_ordinal slots rest bytes any_recovered
    | .save entry_to_save =>
      if set_header_entry_asserts bytes (header_idx * 4)
          entry_to_save.offset_sectors entry_to_save.size_sectors then
        recover_loop duplicate_behaviour ask_behaviour ask_ordinal slots rest
          (set_header_entry bytes (header_idx * 4)
            entry_to_save.offset_sectors entry_to_save.size_sectors)
          true
      else
        none

/-- main.rs lines 117-122: derive the region position from the file name.
`file_name.split('.')` is modelled by passing the list of dot-separated
tokens, and `str::parse::<i32>` (Rust standard library, external to this
repository) by the abstract `parseInt`.  The source indexes
`file_name_split[1]` / `[2]` and calls `.parse().unwrap()`, so a missing
token or an unparsable token is a panic (`none`). -/
def region_position_of (parseInt : String → Option Int)
    (file_name_split : List String) : Option (Int × Int) :=
  match file_name_split[1]?, file_name_split[2]? with
  | some tx, some tz =>
    match parseInt tx, parseInt tz with
    | some x, some z => some (x, z)
    | _, _ => none
  | _, _ => none

/-- main.rs lines 111-226: `recover_entries` for one file.  `fs::read` is
modelled by receiving the file's bytes; the returned pair is the final
buffer and `any_recovered`, which at lines 217-223 decides whether the
buffer is written back to disk.  `none` models a panic anywhere in
filename parsing, discovery, resolution or the writer's assertions. -/
def recover_entries (decode : Decoder) (parseInt : String → Option Int)
    (duplicate_behaviour : Option DuplicateBehaviour)
    (ask_behaviour : Nat → DuplicateBehaviour) (ask_ordinal : Nat → Nat)
    (file_name_split : List String) (bytes : Bytes) : Option (Bytes × Bool) :=
  match region_position_of parseInt file_name_split with
  | none => none
  | some _region_position =>
    match discover_all_entries decode bytes with
    | none => none
    | some entries_by_header_idx =>
      recover_loop duplicate_behaviour ask_behaviour ask_ordinal entries_by_header_idx
        (List.range SECTOR_SIZE) bytes false

/-- main.rs lines 244-260: the batch loop of `main` over the region files.
The `match` at lines 251-256 catches only the `Err(io::Error)` branch of
`recover_entries` (reporting it and continuing); a Rust panic inside
`recover_entries` is *not* caught there and unwinds out of `main`,
aborting the whole batch — modelled by `none` for the entire run.  The
model receives each file as its dot-split name together with its bytes
(the directory filtering at lines 247-250 selects exactly these files). -/
def run_batch (decode : Decoder) (parseInt : String → Option Int)
    (duplicate_behaviour : Option DuplicateBehaviour)
    (ask_behaviour : Nat → DuplicateBehaviour) (ask_ordinal : Nat → Nat) :
    List (List String × Bytes) → Option (List (Bytes × Bool))
  | [] => some []
  | (file_name_split, bytes) :: rest =>
    match recover_entries decode parseInt duplicate_behaviour ask_behaviour ask_ordinal
        file_name_split bytes with
    | none => none
    | some result =>
      match run_batch decode parseInt duplicate_behaviour ask_behaviour ask_ordinal rest with
      | none => none
      | some results => some (result :: results)

/-! ### Arithmetic helpers for the binary header codec -/

/-- `x & 0xff` on `Nat` is `x % 256`. -/
theorem and_255_eq_mod (x : Nat) : x &&& 255 = x % 256 := by
  have h := Nat.and_pow_two_sub_one_eq_mod x 8
  norm_num at h
  exact h

/-- Folding one big-endian byte into the accumulator: `a ||| b <<< k` is
`b * 2 ^ k + a` when `a` fits in `k` bits. -/
theorem lor_shiftLeft_eq_add (a b k : Nat) (ha : a < 2 ^ k) :
    a ||| b <<< k = b * 2 ^ k + a := by
  rw [Nat.shiftLeft_eq, Nat.or_comm, Nat.mul_comm]
  exact (Nat.mul_add_lt_is_or ha b).symm

/-- The 4-byte big-endian combination used by `read_bigendian_u32`,
as plain arithmetic. -/
theorem four_bytes_lor_eq (z a b c : Nat) (hz : z < 256) (ha : a < 256) (hb : b < 256) :
    z ||| a <<< 8 ||| b <<< 16 ||| c <<< 24 =
      c * 16777216 + b * 65536 + a * 256 + z := by
  have h1 : z ||| a <<< 8 = a * 256 + z := by
    have := lor_shiftLeft_eq_add z a 8 (by norm_num [hz])
    simpa using this
  have h2 : (a * 256 + z) ||| b <<< 16 = b * 65536 + (a * 256 + z) := by
    have := lor_shiftLeft_eq_add (a * 256 + z) b 16 (by nlinarith)
    simpa using this
  have h3 : (b * 65536 + (a * 256 + z)) ||| c <<< 24 =
      c * 16777216 + (b * 65536 + (a * 256 + z)) := by
    have := lor_shiftLeft_eq_add (b * 65536 + (a * 256 + z)) c 24 (by nlinarith)
    simpa using this
  rw [h1, h2, h3]
  ring

/-- Reading back the four bytes written by `set_header_entry`, as plain
arithmetic on the written `(sector_idx, size)` pair. -/
theorem read_set_header_entry (bytes : Bytes) (header_offset sector_idx size : Nat)
    (hsize : size < 256) :
    read_bigendian_u32 (set_header_entry bytes header_offset sector_idx size) header_offset =
      (sector_idx / 65536 % 256) * 16777216 + (sector_idx / 256 % 256) * 65536 +
        (sector_idx % 256) * 256 + size := by
  have hd3 : (set_header_entry bytes header_offset sector_idx size).data (header_offset + 3)
      = size := by
    simp [set_header_entry]
  have hd2 : (set_header_entry bytes header_offset sector_idx size).data (header_offset + 2)
      = sector_idx % 256 := by
    simp [set_header_entry, Nat.shiftRight_zero, and_255_eq_mod]
  have hd1 : (set_header_entry bytes header_offset sector_idx size).data (header_offset + 1)
      = sector_idx / 256 % 256 := by
    simp [set_header_entry, and_255_eq_mod, Nat.shiftRight_eq_div_pow]
  have hd0 : (set_header_entry bytes header_offset sector_idx size).data (header_offset + 0)
      = sector_idx / 65536 % 256 := by
    simp [set_header_entry, and_255_eq_mod, Nat.shiftRight_eq_div_pow]
  rw [read_bigendian_u32, hd3, hd2, hd1, hd0]
  exact four_bytes_lor_eq _ _ _ _ hsize (Nat.mod_lt _ (by norm_num))
    (Nat.mod_lt _ (by norm_num))

/-- C3: For every `offset_sectors` representable in 24 bits and every
`size_sectors` in 8 bits, writing the packed big-endian 4-byte header entry
(`set_header_entry`, util.rs lines 32-36) and re-reading and unpacking those
same 4 bytes (`read_bigendian_u32`, the `>> SIZE_BITS` / `& SIZE_MASK`
unpacking of main.rs lines 82-84) yields exactly the original pair, and the
writer's post-write round-trip assertions (util.rs lines 42-43) pass. -/
theorem C3_pack_unpack_roundtrip (bytes : Bytes) (header_offset offset_sectors size_sectors : Nat)
    (hoff : offset_sectors < 2 ^ 24) (hsize : size_sectors < 2 ^ 8) :
    (read_bigendian_u32 (set_header_entry bytes header_offset offset_sectors size_sectors)
        header_offset) >>> SIZE_BITS = offset_sectors
    ∧ (read_bigendian_u32 (set_header_entry bytes header_offset offset_sectors size_sectors)
        header_offset) &&& SIZE_MASK = size_sectors
    ∧ set_header_entry_asserts bytes header_offset offset_sectors size_sectors = true := by
  have hs256 : size_sectors < 256 := by omega
  have hread := read_set_header_entry bytes header_offset offset_sectors size_sectors hs256
  have hmask : SIZE_MASK = 255 := rfl
  have hbits : SIZE_BITS = 8 := rfl
  have hshift : (read_bigendian_u32
      (set_header_entry bytes header_offset offset_sectors size_sectors)
      header_offset) >>> SIZE_BITS = offset_sectors := by
    rw [hbits, Nat.shiftRight_eq_div_pow, hread]
    norm_num
    omega
  have hand : (read_bigendian_u32
      (set_header_entry bytes header_offset offset_sectors size_sectors)
      header_offset) &&& SIZE_MASK = size_sectors := by
    rw [hmask, and_255_eq_mod, hread]
    omega
  refine ⟨hshift, hand, ?_⟩
  rw [set_header_entry_asserts]
  simp only [Bool.and_eq_true, beq_iff_eq]
  exact ⟨by rw [hshift]; omega, by rw [hand]⟩

/-- Witness for C3 at a concrete input: buffer of zeros, slot offset 0,
pair `(300, 7)`. -/
theorem C3_pack_unpack_roundtrip_witness :
    (read_bigendian_u32 (set_header_entry ⟨8192, fun _ => 0⟩ 0 300 7) 0) >>> SIZE_BITS = 300
    ∧ (read_bigendian_u32 (set_header_entry ⟨8192, fun _ => 0⟩ 0 300 7) 0) &&& SIZE_MASK = 7
    ∧ set_header_entry_asserts ⟨8192, fun _ => 0⟩ 0 300 7 = true :=
  C3_pack_unpack_roundtrip ⟨8192, fun _ => 0⟩ 0 300 7 (by norm_num) (by norm_num)

/-! ### Concrete fixtures -/

/-- A decoder that fails on every payload. -/
def trivialDecoder : Decoder := fun _ _ _ _ => none

/-- A decoder that accepts every payload as a root compound with integer
`xPos = 0` and `zPos = 0` (mapping to header slot 0). -/
def xzDecoder : Decoder :=
  fun _ _ _ _ => some [("xPos", NbtTag.int 0), ("zPos", NbtTag.int 0)]

/-- A decoder that accepts every payload as an *empty* root compound:
decodable, no `Level` field, no `xPos`/`zPos` fields. -/
def emptyCompoundDecoder : Decoder := fun _ _ _ _ => some []

/-- A 3-sector (12288-byte) file whose single payload sector (sector 2)
declares length 4096 (bytes `00 00 10 00`) with compression tag 2.  The
declared length equals the bytes remaining from the sector start, so the
scanner's length check at main.rs line 29 accepts it, but the payload
slice `bytes[8197..12293]` extends 5 bytes past the end of the file. -/
def c1Bytes : Bytes :=
  ⟨12288, fun i => if i = 8194 then 16 else if i = 8196 then 2 else 0⟩

/-- A 3-sector file whose single payload sector (sector 2) declares
length 1 with compression tag 2: accepted by every check, decode is
attempted on the in-bounds slice `bytes[8197..8198]`. -/
def c2Bytes : Bytes :=
  ⟨12288, fun i => if i = 8195 then 1 else if i = 8196 then 2 else 0⟩

/-- C1 (code bug): on `c1Bytes` the scan panics instead of skipping the
malformed payload, for every decoder — the slice end `8197 + 4096 = 12293`
exceeds the 12288-byte buffer, so `&bytes[slice_start..slice_end]` at
main.rs line 48 panics before any decode attempt; the length check at
line 29 (`size_bytes > bytes.len() - byte_offset`) does not prevent it
because it ignores the 5 header bytes that precede the payload. -/
theorem C1_scan_panics (decode : Decoder) :
    discover_all_entries decode c1Bytes = none := rfl

/-- C2 (code bug): a payload that decodes successfully as a tree with no
`Level` field and no `xPos` field makes the scan panic (the
`.get("xPos").unwrap()` at main.rs line 66) instead of discarding the
candidate and continuing. -/
theorem C2_scan_panics_on_missing_coords :
    discover_all_entries emptyCompoundDecoder c2Bytes = none := rfl

/-- C9 (code bug): a slot with two untracked candidates, duplicate
behaviour fixed to `TakeUntracked`, and collaborator ordinal answer `3`:
the answer passes the only validation the call site requests
(`|value| value > 0`, i.e. `ask_for_integer_contract`), and resolution
panics on the out-of-bounds index `untracked_entries[2]` at main.rs
line 201 instead of re-prompting. -/
theorem C9_out_of_range_ordinal_panics :
    ask_for_integer_contract 3
    ∧ resolve_slot (some DuplicateBehaviour.TakeUntracked) DuplicateBehaviour.TakeCurrent 3
        [⟨false, 2, 1⟩, ⟨false, 3, 1⟩] = SlotAction.panic :=
  ⟨by norm_num [ask_for_integer_contract], by decide⟩

/-- The empty file. -/
def emptyBytes : Bytes := ⟨0, fun _ => 0⟩

/-- If every slot visited by the per-slot loop resolves to "no action",
the loop leaves the buffer and the `any_recovered` flag untouched. -/
theorem recover_loop_noAction (duplicate_behaviour : Option DuplicateBehaviour)
    (ask_behaviour : Nat → DuplicateBehaviour) (ask_ordinal : Nat → Nat)
    (slots : Nat → List RegionEntry) :
    ∀ (idxs : List Nat) (bytes : Bytes) (any_recovered : Bool),
      (∀ i ∈ idxs, resolve_slot duplicate_behaviour (ask_behaviour i) (ask_ordinal i) (slots i)
        = SlotAction.noAction) →
      recover_loop duplicate_behaviour ask_behaviour ask_ordinal slots idxs bytes any_recovered
        = some (bytes, any_recovered) := by
  intro idxs
  induction idxs with
  | nil => intro bytes any_recovered _; rfl
  | cons i rest ih =>
    intro bytes any_recovered h
    rw [recover_loop, h i (List.mem_cons_self i rest)]
    exact ih bytes any_recovered (fun j hj => h j (List.mem_cons_of_mem i hj))

/-- C10 (code bug): in a batch containing the malformed file name `foo.mca`
(dot-split tokens `["foo", "mca"]`, which has no 3rd token) followed by the
well-formed `r.0.0.mca`, the whole run aborts: `file_name_split[2]` at
main.rs line 121 panics, value `unwrap()`ped parsing included, and the
`match` at main.rs lines 251-256 only catches `Err(io::Error)` values, not
panics — so no per-file error is reported and the remaining files are not
processed.  The second conjunct shows the well-formed file on its own would
have processed fine. -/
theorem C10_malformed_filename_aborts_batch (parseInt : String → Option Int)
    (h0 : parseInt "0" = some 0) :
    run_batch xzDecoder parseInt none (fun _ => DuplicateBehaviour.TakeCurrent) (fun _ => 1)
      [(["foo", "mca"], emptyBytes), (["r", "0", "0", "mca"], emptyBytes)] = none
    ∧ recover_entries xzDecoder parseInt none (fun _ => DuplicateBehaviour.TakeCurrent)
        (fun _ => 1) ["r", "0", "0", "mca"] emptyBytes = some (emptyBytes, false) := by
  constructor
  · rfl
  · have hpos : region_position_of parseInt ["r", "0", "0", "mca"] = some (0, 0) := by
      simp [region_position_of, h0]
    have hdisc : discover_all_entries xzDecoder emptyBytes = some (fun _ => []) := rfl
    unfold recover_entries
    rw [hpos, hdisc]
    exact recover_loop_noAction none (fun _ => DuplicateBehaviour.TakeCurrent) (fun _ => 1)
      (fun _ => []) (List.range SECTOR_SIZE) emptyBytes false (fun _ _ => rfl)

/-- Witness for C10 with a concrete integer parser. -/
theorem C10_malformed_filename_aborts_batch_witness :
    run_batch xzDecoder (fun s => if s = "0" then some 0 else none) none
      (fun _ => DuplicateBehaviour.TakeCurrent) (fun _ => 1)
      [(["foo", "mca"], emptyBytes), (["r", "0", "0", "mca"], emptyBytes)] = none
    ∧ recover_entries xzDecoder (fun s => if s = "0" then some 0 else none) none
        (fun _ => DuplicateBehaviour.TakeCurrent) (fun _ => 1)
        ["r", "0", "0", "mca"] emptyBytes = some (emptyBytes, false) :=
  C10_malformed_filename_aborts_batch (fun s => if s = "0" then some 0 else none) rfl

/-! ### Resolution-engine lemmas (C4, C5) -/

/-- Every candidate is either current or untracked: the two partition
counts add up to the list length. -/
theorem countP_current_add_untracked (l : List RegionEntry) :
    l.countP (fun e => e.is_current) + l.countP (fun e => !e.is_current) = l.length := by
  induction l with
  | nil => rfl
  | cons a t ih =>
    cases ha : a.is_current <;> simp [List.countP_cons, ha] <;> omega

/-- When exactly one untracked candidate exists, `find?` returns exactly
the untracked member. -/
theorem find?_untracked_of_unique {l : List RegionEntry} {e : RegionEntry}
    (hmem : e ∈ l) (he : e.is_current = false)
    (hcount : l.countP (fun x => !x.is_current) = 1) :
    l.find? (fun x => !x.is_current) = some e := by
  induction l with
  | nil => cases hmem
  | cons a t ih =>
    rw [List.countP_cons] at hcount
    cases ha : a.is_current with
    | false =>
      rw [List.find?_cons_of_pos _ (by simp [ha])]
      have ht : t.countP (fun x => !x.is_current) = 0 := by
        simp only [ha, Bool.not_false, if_pos] at hcount
        omega
      rcases List.mem_cons.mp hmem with rfl | hmem'
      · rfl
      · exact absurd (by simp [he] : (fun x => !x.is_current) e = true)
          (by simpa using List.countP_eq_zero.mp ht e hmem')
    | true =>
      rw [List.find?_cons_of_neg _ (by simp [ha])]
      rcases List.mem_cons.mp hmem with rfl | hmem'
      · rw [ha] at he; cases he
      · refine ih hmem' ?_
        simpa [ha] using hcount

/-- C4: a slot with exactly one current and exactly one untracked candidate:
under fixed policy `TakeCurrent` resolution is "no action" (main.rs
lines 181-182), and under fixed policy `TakeUntracked` it adopts the
untracked candidate (main.rs lines 183-186). -/
theorem C4_one_current_one_untracked (ask_behaviour : DuplicateBehaviour) (ask_ordinal : Nat)
    (entries : List RegionEntry) (e : RegionEntry)
    (hcur : entries.countP (fun x => x.is_current) = 1)
    (hunt : entries.countP (fun x => !x.is_current) = 1)
    (hmem : e ∈ entries) (he : e.is_current = false) :
    resolve_slot (some DuplicateBehaviour.TakeCurrent) ask_behaviour ask_ordinal entries
      = SlotAction.noAction
    ∧ resolve_slot (some DuplicateBehaviour.TakeUntracked) ask_behaviour ask_ordinal entries
      = SlotAction.save e := by
  have hlen := countP_current_add_untracked entries
  rcases entries with _ | ⟨a, _ | ⟨b, t⟩⟩
  · simp at hmem
  · simp at hlen
    omega
  · have hfind := find?_untracked_of_unique hmem he hunt
    constructor
    · simp [resolve_slot, hcur, hunt]
    · simp [resolve_slot, hcur, hunt, hfind]

/-- Witness for C4: the spec's own example — header slot points at sector 10
size 1 (the current candidate), a second decodable payload at sector 20. -/
theorem C4_one_current_one_untracked_witness :
    resolve_slot (some DuplicateBehaviour.TakeCurrent) DuplicateBehaviour.TakeCurrent 1
      [⟨true, 10, 1⟩, ⟨false, 20, 1⟩] = SlotAction.noAction
    ∧ resolve_slot (some DuplicateBehaviour.TakeUntracked) DuplicateBehaviour.TakeCurrent 1
      [⟨true, 10, 1⟩, ⟨false, 20, 1⟩] = SlotAction.save ⟨false, 20, 1⟩ :=
  C4_one_current_one_untracked DuplicateBehaviour.TakeCurrent 1
    [⟨true, 10, 1⟩, ⟨false, 20, 1⟩] ⟨false, 20, 1⟩
    (by decide) (by decide) (by decide) rfl

/-- C5: a slot with no current candidate and exactly one untracked candidate
is adopted unconditionally — the candidate list has length one, so
resolution takes the single-candidate branch (main.rs lines 134-139), which
never consults the duplicate-behaviour policy or the collaborator. -/
theorem C5_unique_untracked_adopted (duplicate_behaviour : Option DuplicateBehaviour)
    (ask_behaviour : DuplicateBehaviour) (ask_ordinal : Nat)
    (entries : List RegionEntry) (e : RegionEntry)
    (hcur : entries.countP (fun x => x.is_current) = 0)
    (hunt : entries.countP (fun x => !x.is_current) = 1)
    (hmem : e ∈ entries) :
    resolve_slot duplicate_behaviour ask_behaviour ask_ordinal entries = SlotAction.save e := by
  have hlen := countP_current_add_untracked entries
  rcases entries with _ | ⟨a, _ | ⟨b, t⟩⟩
  · simp at hmem
  · have ha : a.is_current = false := by
      by_contra h
      simp [List.countP_cons, eq_true_of_ne_false h] at hcur
    have : e = a := by simpa using hmem
    subst this
    simp [resolve_slot, ha]
  · simp only [List.length_cons] at hlen
    omega

/-- Witness for C5: a single untracked candidate at sector 7, policy unset. -/
theorem C5_unique_untracked_adopted_witness :
    resolve_slot none DuplicateBehaviour.TakeCurrent 1 [⟨false, 7, 2⟩]
      = SlotAction.save ⟨false, 7, 2⟩ :=
  C5_unique_untracked_adopted none DuplicateBehaviour.TakeCurrent 1
    [⟨false, 7, 2⟩] ⟨false, 7, 2⟩ (by decide) (by decide) (by decide)

/-! ### Discovery-scan inversion lemmas -/

/-- Inversion of one scan-loop iteration that produced a candidate: the
candidate's fields and the sector's accepted length check, read off the
branch structure of `scanSector`. -/
theorem scanSector_found (decode : Decoder) (bytes : Bytes) (s slot : Nat) (e : RegionEntry)
    (h : scanSector decode bytes s = StepResult.found slot e) :
    slot < 1024
    ∧ e.offset_sectors = s % 2 ^ 32
    ∧ e.size_sectors = size_sectors_as_u8 (read_bigendian_u32 bytes (s * SECTOR_SIZE))
    ∧ e.is_current = ((read_bigendian_u32 bytes (slot * 4) >>> SIZE_BITS == e.offset_sectors)
        && (read_bigendian_u32 bytes (slot * 4) &&& SIZE_MASK == e.size_sectors))
    ∧ read_bigendian_u32 bytes (s * SECTOR_SIZE) ≤ bytes.len - s * SECTOR_SIZE := by
  simp only [scanSector] at h
  split at h
  · exact absurd h (by simp)
  next hlen =>
    split at h
    · exact absurd h (by simp)
    next hslice =>
      split at h
      · exact absurd h (by simp)
      next root hdec =>
        split at h
        · exact absurd h (by simp)
        next level hlev =>
          split at h
          next chunk_x chunk_z hx hz =>
            have hx0 : (0 : Int) ≤ chunk_x % 32 := Int.emod_nonneg chunk_x (by norm_num)
            have hx32 : chunk_x % 32 < 32 := Int.emod_lt_of_pos chunk_x (by norm_num)
            have hz0 : (0 : Int) ≤ chunk_z % 32 := Int.emod_nonneg chunk_z (by norm_num)
            have hz32 : chunk_z % 32 < 32 := Int.emod_lt_of_pos chunk_z (by norm_num)
            injection h with hslot he
            subst hslot
            subst he
            refine ⟨?_, rfl, rfl, rfl, ?_⟩
            · omega
            · omega
          next => exact absurd h (by simp)

/-- Every candidate in the scan output either was already in the
accumulator or was produced by a `found` step at some visited sector. -/
theorem scanLoop_mem (decode : Decoder) (bytes : Bytes) :
    ∀ (l : List Nat) (acc out : Nat → List RegionEntry),
      scanLoop decode bytes l acc = some out →
      ∀ (i : Nat) (e : RegionEntry), e ∈ out i →
        e ∈ acc i ∨ ∃ s ∈ l, scanSector decode bytes s = StepResult.found i e := by
  intro l
  induction l with
  | nil =>
    intro acc out h i e hmem
    injection h with h
    subst h
    exact Or.inl hmem
  | cons s rest ih =>
    intro acc out h i e hmem
    rw [scanLoop] at h
    split at h
    · cases h
    next heq =>
      rcases ih _ _ h i e hmem with h1 | ⟨t, ht, hf⟩
      · exact Or.inl h1
      · exact Or.inr ⟨t, List.mem_cons_of_mem s ht, hf⟩
    next slot e0 heq =>
      rcases ih _ _ h i e hmem with h1 | ⟨t, ht, hf⟩
      · by_cases hi : i = slot
        · subst hi
          rw [if_pos rfl] at h1
          rcases List.mem_append.mp h1 with h2 | h2
          · exact Or.inl h2
          · have he0 : e = e0 := by simpa using h2
            subst he0
            exact Or.inr ⟨s, List.mem_cons_self s rest, heq⟩
        · rw [if_neg hi] at h1
          exact Or.inl h1
      · exact Or.inr ⟨t, List.mem_cons_of_mem s ht, hf⟩

/-- Every candidate produced by `discover_all_entries` arises from a
`found` step at a sector of the scanned range. -/
theorem discover_mem (decode : Decoder) (bytes : Bytes) (slots : Nat → List RegionEntry)
    (h : discover_all_entries decode bytes = some slots) (i : Nat) (e : RegionEntry)
    (hmem : e ∈ slots i) :
    ∃ s ∈ sectorRange bytes, scanSector decode bytes s = StepResult.found i e := by
  rcases scanLoop_mem decode bytes (sectorRange bytes) (fun _ => []) slots h i e hmem with
    h1 | h2
  · cases h1
  · exact h2

/-- Discovered candidates only occupy the 1024 header slots, carry a `u32`
sector offset, and record `is_current` exactly as the comparison of the
slot's packed header entry against their own `(offset, size)` pair. -/
theorem discover_entry_props (decode : Decoder) (bytes : Bytes) (slots : Nat → List RegionEntry)
    (h : discover_all_entries decode bytes = some slots) (i : Nat) (e : RegionEntry)
    (hmem : e ∈ slots i) :
    i < 1024 ∧ e.offset_sectors < 2 ^ 32
    ∧ e.is_current = ((read_bigendian_u32 bytes (i * 4) >>> SIZE_BITS == e.offset_sectors)
        && (read_bigendian_u32 bytes (i * 4) &&& SIZE_MASK == e.size_sectors)) := by
  obtain ⟨s, _, hf⟩ := discover_mem decode bytes slots h i e hmem
  obtain ⟨hslot, hoff, _, hcur, _⟩ := scanSector_found decode bytes s i e hf
  exact ⟨hslot, by rw [hoff]; exact Nat.mod_lt s (by norm_num), hcur⟩

/-- Slots at index 1024 and above never receive a candidate. -/
theorem discover_slots_empty_of_ge (decode : Decoder) (bytes : Bytes)
    (slots : Nat → List RegionEntry) (h : discover_all_entries decode bytes = some slots)
    (i : Nat) (hi : 1024 ≤ i) : slots i = [] := by
  rw [List.eq_nil_iff_forall_not_mem]
  intro e hmem
  have := (discover_entry_props decode bytes slots h i e hmem).1
  omega

/-! ### Scan-loop composition helpers -/

theorem scanLoop_append (decode : Decoder) (bytes : Bytes) :
    ∀ (l1 l2 : List Nat) (acc : Nat → List RegionEntry),
      scanLoop decode bytes (l1 ++ l2) acc =
        match scanLoop decode bytes l1 acc with
        | none => none
        | some acc' => scanLoop decode bytes l2 acc' := by
  intro l1
  induction l1 with
  | nil => intro l2 acc; rfl
  | cons s rest ih =>
    intro l2 acc
    rw [List.cons_append, scanLoop, scanLoop]
    split
    · rfl
    · exact ih l2 acc
    · exact ih l2 _

theorem scanLoop_skips (decode : Decoder) (bytes : Bytes) :
    ∀ (l : List Nat) (acc : Nat → List RegionEntry),
      (∀ s ∈ l, scanSector decode bytes s = StepResult.skip) →
      scanLoop decode bytes l acc = some acc := by
  intro l
  induction l with
  | nil => intro acc _; rfl
  | cons s rest ih =>
    intro acc h
    rw [scanLoop, h s (List.mem_cons_self s rest)]
    exact ih acc (fun t ht => h t (List.mem_cons_of_mem s ht))

theorem scanLoop_singleton (decode : Decoder) (bytes : Bytes) (s : Nat)
    (acc : Nat → List RegionEntry) :
    scanLoop decode bytes [s] acc =
      match scanSector decode bytes s with
      | StepResult.panic => none
      | StepResult.skip => some acc
      | StepResult.found slot e => some (fun i => if i = slot then acc i ++ [e] else acc i) := by
  rw [scanLoop]
  split <;> rfl

/-! ### C8: recorded size versus the exact integer ceiling -/

/-- C8 amended: for every buffer of at most `2 ^ 32` sectors, every
candidate recorded by discovery has
`size_sectors = min (ceil (declared length / 4096)) 255` — the exact
integer ceiling *saturated at 255* by the `as u8` cast at main.rs line 40 —
where the declared length (which the accepted length check bounds by the
bytes remaining from the sector start) is the 4-byte big-endian prefix of
the candidate's sector. -/
theorem C8_size_sectors_saturated (decode : Decoder) (bytes : Bytes)
    (slots : Nat → List RegionEntry)
    (hlen : bytes.len ≤ 2 ^ 32 * SECTOR_SIZE)
    (h : discover_all_entries decode bytes = some slots)
    (i : Nat) (e : RegionEntry) (hmem : e ∈ slots i) :
    e.size_sectors =
      min ((read_bigendian_u32 bytes (e.offset_sectors * SECTOR_SIZE) + (SECTOR_SIZE - 1))
          / SECTOR_SIZE) 255
    ∧ read_bigendian_u32 bytes (e.offset_sectors * SECTOR_SIZE)
        ≤ bytes.len - e.offset_sectors * SECTOR_SIZE := by
  obtain ⟨s, hs, hf⟩ := discover_mem decode bytes slots h i e hmem
  obtain ⟨_, hoff, hsize, _, hbound⟩ := scanSector_found decode bytes s i e hf
  obtain ⟨hs2, hsu⟩ := List.mem_range'_1.mp hs
  have h32 : (2 : Nat) ^ 32 = 4294967296 := by norm_num
  have hsector : SECTOR_SIZE = 4096 := rfl
  have hslt : s < 2 ^ 32 := by
    rw [hsector] at hsu hlen
    rw [h32] at hlen ⊢
    omega
  have hoff' : e.offset_sectors = s := by rw [hoff, Nat.mod_eq_of_lt hslt]
  rw [hoff']
  exact ⟨by rw [hsize]; rfl, hbound⟩

/-- Witness input for C8: a 3-sector file whose payload sector 2 declares
length 1 with tag 2 over a zeroed header. -/
def smallBytes : Bytes :=
  ⟨12288, fun i => if i = 8195 then 1 else if i = 8196 then 2 else 0⟩

/-- Witness for C8 at `smallBytes` with the `xPos = zPos = 0` decoder:
discovery records the single candidate `⟨false, 2, 1⟩` in slot 0. -/
theorem C8_size_sectors_saturated_witness :
    (⟨false, 2, 1⟩ : RegionEntry).size_sectors =
      min ((read_bigendian_u32 smallBytes
            ((⟨false, 2, 1⟩ : RegionEntry).offset_sectors * SECTOR_SIZE) + (SECTOR_SIZE - 1))
          / SECTOR_SIZE) 255
    ∧ read_bigendian_u32 smallBytes
        ((⟨false, 2, 1⟩ : RegionEntry).offset_sectors * SECTOR_SIZE)
        ≤ smallBytes.len - (⟨false, 2, 1⟩ : RegionEntry).offset_sectors * SECTOR_SIZE :=
  C8_size_sectors_saturated xzDecoder smallBytes
    (fun i => if i = 0 then [⟨false, 2, 1⟩] else []) (by norm_num [smallBytes, SECTOR_SIZE])
    rfl 0 ⟨false, 2, 1⟩ (by simp)

/-- The C8 counterexample file: 258 sectors (1056768 bytes); sector 2
declares length 1044481 (bytes `00 0F F0 01`) with compression tag 2; the
header table is zeroed. -/
def c8Bytes : Bytes :=
  ⟨1056768, fun i =>
    if i = 8193 then 15 else if i = 8194 then 240 else if i = 8195 then 1
    else if i = 8196 then 2 else 0⟩

/-- C8 counterexample: on `c8Bytes` the accepted payload at sector 2
declares length `1044481`, whose exact integer ceiling of 4096-byte
sectors is `256`, yet the recorded candidate is `⟨false, 2, 255⟩` —
`size_sectors = 255 ≠ 256`, refuting the claim that the recorded size
always equals `ceil (length / 4096)`. -/
theorem C8_counterexample :
    ∃ slots, discover_all_entries xzDecoder c8Bytes = some slots
      ∧ slots 0 = [⟨false, 2, 255⟩]
      ∧ read_bigendian_u32 c8Bytes (2 * SECTOR_SIZE) = 1044481
      ∧ (1044481 + (SECTOR_SIZE - 1)) / SECTOR_SIZE = 256
      ∧ (⟨false, 2, 255⟩ : RegionEntry).size_sectors ≠ 256 := by
  have h2 : scanSector xzDecoder c8Bytes 2 = StepResult.found 0 ⟨false, 2, 255⟩ := rfl
  have hskip : ∀ s ∈ List.range' 3 255, scanSector xzDecoder c8Bytes s = StepResult.skip := by
    intro s hs
    obtain ⟨hs3, hs258⟩ := List.mem_range'_1.mp hs
    have hd : c8Bytes.data (s * SECTOR_SIZE + 4) = 0 := by
      dsimp only [c8Bytes, SECTOR_SIZE]
      rw [if_neg (by omega), if_neg (by omega), if_neg (by omega), if_neg (by omega)]
    simp only [scanSector, hd]
    split
    · rfl
    next hno => exact absurd (Or.inr ⟨by norm_num, by norm_num⟩) hno
  have hrange : sectorRange c8Bytes = [2] ++ List.range' 3 255 := by
    have h0 : sectorRange c8Bytes = List.range' 2 256 := by
      norm_num [sectorRange, c8Bytes, SECTOR_SIZE]
    have h1 := List.range'_append 2 1 255 1
    norm_num at h1
    rw [h0]
    exact h1.symm.trans rfl
  refine ⟨fun i => if i = 0 then [⟨false, 2, 255⟩] else [], ?_, rfl, rfl, rfl, by decide⟩
  rw [discover_all_entries, hrange, scanLoop_append]
  have hA : scanLoop xzDecoder c8Bytes [2] (fun _ => []) =
      some (fun i => if i = 0 then [⟨false, 2, 255⟩] else []) := by
    rw [scanLoop_singleton, h2]
    rfl
  rw [hA]
  exact scanLoop_skips xzDecoder c8Bytes (List.range' 3 255) _ hskip

/-! ### C7: at most one current candidate per slot -/

/-- The C7 counterexample file: `2 ^ 32 + 3` sectors
(`17592186056704 = (2 ^ 32 + 3) * 4096` bytes).  Header slot 0 records
`(offset 2, size 1)` (bytes `00 00 02 01`); sector 2 and sector
`2 ^ 32 + 2` each declare length 1 with compression tag 2
(`17592186052611 = (2 ^ 32 + 2) * 4096 + 3`). -/
def bigBytes : Bytes :=
  ⟨17592186056704, fun i =>
    if i = 2 then 2 else if i = 3 then 1
    else if i = 8195 then 1 else if i = 8196 then 2
    else if i = 17592186052611 then 1 else if i = 17592186052612 then 2 else 0⟩

/-- C7 counterexample: on `bigBytes` (with the `xPos = zPos = 0` decoder)
the sectors `2` and `2 ^ 32 + 2 = 4294967298` both produce candidates for
slot 0, and both are marked `is_current = true`: the comparison at main.rs
line 88 uses `sector_idx as u32`, and `4294967298 as u32 = 2` matches the
header entry exactly as sector 2 does.  Two candidates at distinct sector
offsets *can* both match the single header entry, so the claimed
every-buffer invariant fails. -/
theorem C7_counterexample :
    ∃ slots, discover_all_entries xzDecoder bigBytes = some slots
      ∧ (slots 0).countP (fun e => e.is_current) = 2 := by
  have h2 : scanSector xzDecoder bigBytes 2 = StepResult.found 0 ⟨true, 2, 1⟩ := rfl
  have hbig : scanSector xzDecoder bigBytes 4294967298 = StepResult.found 0 ⟨true, 2, 1⟩ := rfl
  have hskip : ∀ s ∈ List.range' 3 4294967295,
      scanSector xzDecoder bigBytes s = StepResult.skip := by
    intro s hs
    obtain ⟨hs3, hsu⟩ := List.mem_range'_1.mp hs
    have hd : bigBytes.data (s * SECTOR_SIZE + 4) = 0 := by
      dsimp only [bigBytes, SECTOR_SIZE]
      rw [if_neg (by omega), if_neg (by omega), if_neg (by omega), if_neg (by omega),
        if_neg (by omega), if_neg (by omega)]
    simp only [scanSector, hd]
    split
    · rfl
    next hno => exact absurd (Or.inr ⟨by norm_num, by norm_num⟩) hno
  have hrange : sectorRange bigBytes = ([2] ++ List.range' 3 4294967295) ++ [4294967298] := by
    have h0 : sectorRange bigBytes = List.range' 2 4294967297 := by
      norm_num [sectorRange, bigBytes, SECTOR_SIZE]
    have h1 := List.range'_append 2 1 4294967295 1
    norm_num at h1
    have h2' := List.range'_append 2 4294967296 1 1
    norm_num at h2'
    rw [h0, ← h2', ← h1]
    rfl
  have hA : scanLoop xzDecoder bigBytes [2] (fun _ => []) =
      some (fun i => if i = 0 then [⟨true, 2, 1⟩] else []) := by
    rw [scanLoop_singleton, h2]
    rfl
  have hB : scanLoop xzDecoder bigBytes (List.range' 3 4294967295)
      (fun i => if i = 0 then [⟨true, 2, 1⟩] else []) =
      some (fun i => if i = 0 then [⟨true, 2, 1⟩] else []) :=
    scanLoop_skips xzDecoder bigBytes (List.range' 3 4294967295) _ hskip
  have hC : scanLoop xzDecoder bigBytes [4294967298]
      (fun i => if i = 0 then [⟨true, 2, 1⟩] else []) =
      some (fun i => if i = 0 then [⟨true, 2, 1⟩, ⟨true, 2, 1⟩] else []) := by
    rw [scanLoop_singleton, hbig]
    refine congrArg some (funext fun i => ?_)
    by_cases hi : i = 0
    · subst hi
      rfl
    · simp [hi]
  have hAB : scanLoop xzDecoder bigBytes ([2] ++ List.range' 3 4294967295) (fun _ => []) =
      some (fun i => if i = 0 then [⟨true, 2, 1⟩] else []) := by
    rw [scanLoop_append, hA]
    exact hB
  refine ⟨fun i => if i = 0 then [⟨true, 2, 1⟩, ⟨true, 2, 1⟩] else [], ?_, by decide⟩
  rw [discover_all_entries, hrange, scanLoop_append, hAB]
  exact hC

/-- Invariant carried through the scan: if every remaining sector index is
below `2 ^ 32` and the indices are distinct, then no slot ever accumulates
two `is_current` candidates.  The second accumulator hypothesis says that
once a slot holds a current candidate, no remaining sector can produce
another current candidate for it (two current candidates would force the
same header offset, hence — below `2 ^ 32` — the same sector index). -/
theorem scanLoop_atMostOne_current (decode : Decoder) (bytes : Bytes) :
    ∀ (l : List Nat) (acc out : Nat → List RegionEntry),
      scanLoop decode bytes l acc = some out →
      (∀ s ∈ l, s < 2 ^ 32) → l.Nodup →
      (∀ i, (acc i).countP (fun e => e.is_current) ≤ 1) →
      (∀ i e, e ∈ acc i → e.is_current = true →
        ∀ s ∈ l, ∀ e', scanSector decode bytes s = StepResult.found i e' →
          e'.is_current = false) →
      ∀ i, (out i).countP (fun e => e.is_current) ≤ 1 := by
  intro l
  induction l with
  | nil =>
    intro acc out h _ _ hcount _ i
    injection h with h
    subst h
    exact hcount i
  | cons s rest ih =>
    intro acc out h hbound hnodup hcount hinv i
    rw [scanLoop] at h
    split at h
    · cases h
    next heq =>
      exact ih _ _ h (fun t ht => hbound t (List.mem_cons_of_mem s ht))
        (List.Nodup.of_cons hnodup) hcount
        (fun j e he hc t ht => hinv j e he hc t (List.mem_cons_of_mem s ht)) i
    next slot e0 heq =>
      have hs32 : s < 2 ^ 32 := hbound s (List.mem_cons_self s rest)
      obtain ⟨_, hoff0, _, hcur0, _⟩ := scanSector_found decode bytes s slot e0 heq
      refine ih _ _ h (fun t ht => hbound t (List.mem_cons_of_mem s ht))
        (List.Nodup.of_cons hnodup) ?_ ?_ i
      · intro j
        by_cases hj : j = slot
        · subst hj
          rw [if_pos rfl, List.countP_append]
          cases hc0 : e0.is_current with
          | false => simpa [hc0] using hcount j
          | true =>
            have hzero : (acc j).countP (fun e => e.is_current) = 0 := by
              rw [List.countP_eq_zero]
              intro e' he'
              intro hcur'
              have := hinv j e' he' hcur' s (List.mem_cons_self s rest) e0 heq
              rw [this] at hc0
              cases hc0
            simp [hzero, hc0]
        · rw [if_neg hj]
          exact hcount j
      · intro j e he hc t ht e' heq'
        by_cases hj : j = slot
        · subst hj
          rw [if_pos rfl] at he
          rcases List.mem_append.mp he with he1 | he1
          · exact hinv j e he1 hc t (List.mem_cons_of_mem s ht) e' heq'
          · have he0 : e = e0 := by simpa using he1
            subst he0
            by_contra hcur'
            have hcurT : e'.is_current = true := by
              cases hcE : e'.is_current
              · exact absurd hcE hcur'
              · rfl
            obtain ⟨_, hofft, _, hcurt, _⟩ := scanSector_found decode bytes t j e' heq'
            have ht32 : t < 2 ^ 32 := hbound t (List.mem_cons_of_mem s ht)
            rw [hcur0, Bool.and_eq_true, beq_iff_eq, beq_iff_eq] at hc
            rw [hcurt, Bool.and_eq_true, beq_iff_eq, beq_iff_eq] at hcurT
            have hst : s % 2 ^ 32 = t % 2 ^ 32 := by
              rw [← hoff0, ← hofft, ← hc.1, ← hcurT.1]
            rw [Nat.mod_eq_of_lt hs32, Nat.mod_eq_of_lt ht32] at hst
            subst hst
            exact (List.nodup_cons.mp hnodup).1 ht
        · rw [if_neg hj] at he
          exact hinv j e he hc t (List.mem_cons_of_mem s ht) e' heq'

/-- C7 amended: for every buffer of at most `2 ^ 32` sectors (so that the
`sector_idx as u32` cast at main.rs lines 88/91 is lossless) and every
decoder, the per-slot candidate lists produced by `discover_all_entries`
contain at most one candidate with `is_current = true`, so the
`assert!(current_count <= 1)` at main.rs line 147 cannot fire. -/
theorem C7_at_most_one_current (decode : Decoder) (bytes : Bytes)
    (slots : Nat → List RegionEntry)
    (hlen : bytes.len ≤ 2 ^ 32 * SECTOR_SIZE)
    (h : discover_all_entries decode bytes = some slots) :
    ∀ i, (slots i).countP (fun e => e.is_current) ≤ 1 := by
  have h32 : (2 : Nat) ^ 32 = 4294967296 := by norm_num
  have hsector : SECTOR_SIZE = 4096 := rfl
  refine scanLoop_atMostOne_current decode bytes (sectorRange bytes) (fun _ => []) slots h
    ?_ ?_ (fun i => by simp) (fun i e he => absurd he (List.not_mem_nil e))
  · intro s hs
    obtain ⟨hs2, hsu⟩ := List.mem_range'_1.mp hs
    rw [hsector] at hlen
    rw [h32] at hlen ⊢
    have : bytes.len / 4096 ≤ 4294967296 := by omega
    simp only [sectorRange, hsector] at hsu
    omega
  · exact List.nodup_range' 2 (bytes.len / SECTOR_SIZE - 2)

/-- Witness for C7 (amended) on the empty file: the hypotheses hold and
slot 0's candidate list (empty) has at most one current candidate. -/
theorem C7_at_most_one_current_witness :
    (([] : List RegionEntry)).countP (fun e => e.is_current) ≤ 1 :=
  C7_at_most_one_current trivialDecoder emptyBytes (fun _ => [])
    (by norm_num [emptyBytes, SECTOR_SIZE]) rfl 0

/-! ### C6: frame property of the recovery writes -/

/-- Every entry the resolution engine chooses to save comes from the slot's
candidate list and is not the current entry. -/
theorem resolve_slot_save (duplicate_behaviour : Option DuplicateBehaviour)
    (ask_behaviour : DuplicateBehaviour) (ask_ordinal : Nat)
    (entries : List RegionEntry) (e : RegionEntry)
    (h : resolve_slot duplicate_behaviour ask_behaviour ask_ordinal entries
      = SlotAction.save e) :
    e ∈ entries ∧ e.is_current = false := by
  rcases entries with _ | ⟨a, _ | ⟨b, t⟩⟩
  · cases h
  · simp only [resolve_slot] at h
    split at h
    · cases h
    next hcur =>
      injection h with h
      subst h
      refine ⟨List.mem_singleton_self a, ?_⟩
      cases hab : a.is_current with
      | false => rfl
      | true => exact absurd hab hcur
  · simp only [resolve_slot] at h
    split at h
    · cases h
    · split at h
      · cases h
      next cb hcb =>
        split at h
        · cases h
        next hnotTC =>
          split at h
          next hTU =>
            split at h
            next e1 hfind =>
              injection h with h
              subst h
              exact ⟨List.mem_of_find?_eq_some hfind, by simpa using List.find?_some hfind⟩
            next => cases h
          next hnotTU =>
            split at h
            next hmul =>
              split at h
              next e1 hget =>
                injection h with h
                subst h
                have hmemf := List.mem_filter.mp (List.getElem?_mem hget)
                exact ⟨hmemf.1, by simpa using hmemf.2⟩
              next => cases h
            next => cases h

/-- `set_header_entry` does not change the buffer length. -/
theorem set_header_entry_len (bytes : Bytes) (header_offset sector_idx size : Nat) :
    (set_header_entry bytes header_offset sector_idx size).len = bytes.len := rfl

/-- `set_header_entry` leaves every byte outside its 4-byte window unchanged. -/
theorem set_header_entry_data_ne (bytes : Bytes) (header_offset sector_idx size j : Nat)
    (h3 : j ≠ header_offset + 3) (h2 : j ≠ header_offset + 2) (h1 : j ≠ header_offset + 1)
    (h0 : j ≠ header_offset + 0) :
    (set_header_entry bytes header_offset sector_idx size).data j = bytes.data j := by
  simp only [set_header_entry]
  rw [if_neg h3, if_neg h2, if_neg h1, if_neg h0]

/-- Main induction for the per-slot recovery loop: writes stay inside the
4-byte header windows of slots whose resolution chose an entry to save,
and the `any_recovered` flag is set exactly when some header byte now
differs from the original buffer `b`. -/
theorem recover_loop_frame (duplicate_behaviour : Option DuplicateBehaviour)
    (ask_behaviour : Nat → DuplicateBehaviour) (ask_ordinal : Nat → Nat)
    (slots : Nat → List RegionEntry) (b : Bytes) :
    ∀ (idxs : List Nat) (bcur : Bytes) (anyRec : Bool) (bout : Bytes) (recOut : Bool),
      recover_loop duplicate_behaviour ask_behaviour ask_ordinal slots idxs bcur anyRec
        = some (bout, recOut) →
      idxs.Nodup →
      (∀ j, j / 4 ∈ idxs → bcur.data j = b.data j) →
      (∀ i ∈ idxs, ∀ e, e ∈ slots i → i < 1024 ∧ e.offset_sectors < 2 ^ 32 ∧
        e.is_current = ((read_bigendian_u32 b (i * 4) >>> SIZE_BITS == e.offset_sectors)
          && (read_bigendian_u32 b (i * 4) &&& SIZE_MASK == e.size_sectors))) →
      bcur.len = b.len →
      (∀ j, bcur.data j ≠ b.data j → j < 4096 ∧
        ∃ e, resolve_slot duplicate_behaviour (ask_behaviour (j / 4)) (ask_ordinal (j / 4))
          (slots (j / 4)) = SlotAction.save e) →
      (anyRec = true → ∃ j, j < 4096 ∧ bcur.data j ≠ b.data j) →
      bout.len = b.len
      ∧ (∀ j, bout.data j ≠ b.data j → j < 4096 ∧
          ∃ e, resolve_slot duplicate_behaviour (ask_behaviour (j / 4)) (ask_ordinal (j / 4))
            (slots (j / 4)) = SlotAction.save e)
      ∧ (recOut = true → ∃ j, j < 4096 ∧ bout.data j ≠ b.data j)
      ∧ (recOut = false → bout = bcur ∧ anyRec = false) := by
  intro idxs
  induction idxs with
  | nil =>
    intro bcur anyRec bout recOut h _ _ _ hlen hchanged hany
    injection h with h
    injection h with h1 h2
    subst h1
    subst h2
    exact ⟨hlen, hchanged, hany, fun hf => ⟨rfl, hf⟩⟩
  | cons i rest ih =>
    intro bcur anyRec bout recOut h hnodup hpending hdisc hlen hchanged hany
    rw [recover_loop] at h
    split at h
    · cases h
    · -- noAction
      refine ih bcur anyRec bout recOut h (List.Nodup.of_cons hnodup)
        (fun j hj => hpending j (List.mem_cons_of_mem i hj))
        (fun i' hi' => hdisc i' (List.mem_cons_of_mem i hi')) hlen hchanged hany
    next e hsave =>
      split at h
      next hassert =>
        have hmemcur := resolve_slot_save duplicate_behaviour (ask_behaviour i)
          (ask_ordinal i) (slots i) e hsave
        obtain ⟨hi1024, hoff32, hcureq⟩ :=
          hdisc i (List.mem_cons_self i rest) e hmemcur.1
        have hinotin : i ∉ rest := (List.nodup_cons.mp hnodup).1
        have huntouched : ∀ j, j / 4 ≠ i →
            (set_header_entry bcur (i * 4) e.offset_sectors e.size_sectors).data j
              = bcur.data j := by
          intro j hj
          exact set_header_entry_data_ne bcur (i * 4) e.offset_sectors e.size_sectors j
            (by omega) (by omega) (by omega) (by omega)
        have hrec := ih _ true bout recOut h (List.Nodup.of_cons hnodup) ?_
          (fun i' hi' => hdisc i' (List.mem_cons_of_mem i hi'))
          (by rw [set_header_entry_len]; exact hlen) ?_ ?_
        · exact ⟨hrec.1, hrec.2.1, hrec.2.2.1,
            fun hf => absurd (hrec.2.2.2 hf).2 (by simp)⟩
        · intro j hj
          have hji : j / 4 ≠ i := fun hc => hinotin (hc ▸ hj)
          rw [huntouched j hji]
          exact hpending j (List.mem_cons_of_mem i hj)
        · intro j hne
          by_cases hj : j / 4 = i
          · exact ⟨by omega, ⟨e, by rw [hj]; exact hsave⟩⟩
          · rw [huntouched j hj] at hne
            exact hchanged j hne
        · intro _
          by_contra hno
          push_neg at hno
          have hall : ∀ k, k ≤ 3 →
              (set_header_entry bcur (i * 4) e.offset_sectors e.size_sectors).data (i * 4 + k)
                = b.data (i * 4 + k) := by
            intro k hk
            exact hno (i * 4 + k) (by omega)
          have hread : read_bigendian_u32
              (set_header_entry bcur (i * 4) e.offset_sectors e.size_sectors) (i * 4)
              = read_bigendian_u32 b (i * 4) := by
            rw [read_bigendian_u32, read_bigendian_u32, hall 3 (by omega), hall 2 (by omega),
              hall 1 (by omega), hall 0 (by omega)]
          rw [set_header_entry_asserts, Bool.and_eq_true, beq_iff_eq, beq_iff_eq] at hassert
          rw [hread] at hassert
          rw [Nat.mod_eq_of_lt hoff32] at hassert
          have : e.is_current = true := by
            rw [hcureq, Bool.and_eq_true, beq_iff_eq, beq_iff_eq]
            exact ⟨hassert.1.symm, hassert.2.symm⟩
          rw [hmemcur.2] at this
          cases this
      · cases h

/-- C6: the frame and write-back property of one file's recovery
(main.rs lines 124-226).  Starting from the scanned buffer `b`, a
completed run of the per-slot loop yields a buffer of the same length
whose every changed byte (i) lies in the first 4096 bytes — the header
table — leaving the timestamp table and all payload sectors untouched,
and (ii) belongs to the 4-byte header entry of a slot whose resolution
adopted a candidate; moreover `any_recovered` (which at main.rs lines
217-223 decides whether the file is rewritten) is `true` exactly when
some byte of the buffer changed, and a discovery that produced no
candidate at all leaves the buffer byte-for-byte equal and the flag
`false`. -/
theorem C6_recovery_frame (decode : Decoder) (duplicate_behaviour : Option DuplicateBehaviour)
    (ask_behaviour : Nat → DuplicateBehaviour) (ask_ordinal : Nat → Nat)
    (b : Bytes) (slots : Nat → List RegionEntry) (bout : Bytes) (recOut : Bool)
    (hdisc : discover_all_entries decode b = some slots)
    (hrun : recover_loop duplicate_behaviour ask_behaviour ask_ordinal slots
      (List.range SECTOR_SIZE) b false = some (bout, recOut)) :
    bout.len = b.len
    ∧ (∀ j, bout.data j ≠ b.data j → j < 4096 ∧
        ∃ e, resolve_slot duplicate_behaviour (ask_behaviour (j / 4)) (ask_ordinal (j / 4))
          (slots (j / 4)) = SlotAction.save e)
    ∧ (∀ j, 4096 ≤ j → bout.data j = b.data j)
    ∧ (recOut = true ↔ bout ≠ b)
    ∧ ((∀ i, slots i = []) → recOut = false ∧ bout = b) := by
  obtain ⟨o1, o2, o3, o4⟩ := recover_loop_frame duplicate_behaviour ask_behaviour ask_ordinal
    slots b (List.range SECTOR_SIZE) b false bout recOut hrun (List.nodup_range SECTOR_SIZE)
    (fun _ _ => rfl)
    (fun i _ e he => discover_entry_props decode b slots hdisc i e he)
    rfl (fun j hne => absurd rfl hne) (fun hf => by cases hf)
  have hframe : ∀ j, 4096 ≤ j → bout.data j = b.data j := by
    intro j hj
    by_contra hne
    have := (o2 j hne).1
    omega
  have hiff : recOut = true ↔ bout ≠ b := by
    constructor
    · intro hr hb
      obtain ⟨j, _, hne⟩ := o3 hr
      rw [hb] at hne
      exact hne rfl
    · intro hb
      cases hr : recOut with
      | true => rfl
      | false => exact absurd (o4 hr).1 hb
  refine ⟨o1, o2, hframe, hiff, ?_⟩
  intro hempty
  have hrec : recOut = false := by
    cases hr : recOut with
    | false => rfl
    | true =>
      obtain ⟨j, _, hne⟩ := o3 hr
      obtain ⟨e, hsave⟩ := (o2 j hne).2
      rw [hempty (j / 4)] at hsave
      cases hsave
  exact ⟨hrec, (o4 hrec).1⟩

/-- Witness for C6 on the empty file with the always-failing decoder: the
loop performs no action, the buffer is unchanged and the flag stays
`false`. -/
theorem C6_recovery_frame_witness :
    emptyBytes.len = emptyBytes.len
    ∧ (∀ j, emptyBytes.data j ≠ emptyBytes.data j → j < 4096 ∧
        ∃ e, resolve_slot none DuplicateBehaviour.TakeCurrent 1 ([] : List RegionEntry)
          = SlotAction.save e)
    ∧ (∀ j, 4096 ≤ j → emptyBytes.data j = emptyBytes.data j)
    ∧ (false = true ↔ emptyBytes ≠ emptyBytes)
    ∧ ((∀ _i : Nat, ([] : List RegionEntry) = []) → false = false ∧ emptyBytes = emptyBytes) :=
  C6_recovery_frame trivialDecoder none (fun _ => DuplicateBehaviour.TakeCurrent) (fun _ => 1)
    emptyBytes (fun _ => []) emptyBytes false rfl
    (recover_loop_noAction none (fun _ => DuplicateBehaviour.TakeCurrent) (fun _ => 1)
      (fun _ => []) (List.range SECTOR_SIZE) emptyBytes false (fun _ _ => rfl))

end RegionRecovery
